import Mathlib

/-!
Verification of the Mobiles_Dataset repository: a shallow embedding of the
CSV import script (src/scripts/import_data.py) and the database facade
(src/database.py), with theorems about the price parser, the reference-data
normalizer and its caches, the per-row import loop with its periodic commit
and rollback behaviour, and the transactional CRUD operations.

Python/PostgreSQL values are modelled as follows: machine floats carrying
prices are modelled as exact rationals; nullable CSV cells and SQL NULLs
are `Option`; a pandas NaN cell is `none`; Python digit classes are modelled
as the ASCII decimal digits; exceptions are `Except`.
-/

namespace Mobiles

instance {ε α : Type} [DecidableEq ε] [DecidableEq α] : DecidableEq (Except ε α) := fun x y =>
  match x, y with
  | .error e1, .error e2 =>
    if h : e1 = e2 then .isTrue (by rw [h]) else .isFalse (fun hc => h (Except.error.inj hc))
  | .error _, .ok _ => .isFalse (fun hc => Except.noConfusion hc)
  | .ok _, .error _ => .isFalse (fun hc => Except.noConfusion hc)
  | .ok a1, .ok a2 =>
    if h : a1 = a2 then .isTrue (by rw [h]) else .isFalse (fun hc => h (Except.ok.inj hc))

/-! ## Price parser (src/scripts/import_data.py, `MobileDataImporter.parse_price`) -/

/-- The character class kept by `re.sub(r'[^\d.]', '', price_str)`:
decimal digits and the dot. -/
def isPriceChar (c : Char) : Bool := c.isDigit || c == '.'

/-- `re.sub(r'[^\d.]', '', s)`: delete every character that is not a digit
or a dot. -/
def stripNonDigitDot (s : String) : String := String.mk (s.data.filter isPriceChar)

/-- Numeric value of a list of decimal digit characters, read left to right. -/
def digitsVal (l : List Char) : Nat := l.foldl (fun a c => 10 * a + (c.toNat - 48)) 0

/-- Value of a digits-and-dots numeral that contains at most one dot:
integer part plus fractional part scaled by a power of ten. -/
def ratOfDigitsDots (l : List Char) : ℚ :=
  match l.splitOn '.' with
  | [ip] => (digitsVal ip : ℚ)
  | [ip, fp] => (digitsVal ip : ℚ) + (digitsVal fp : ℚ) / (10 : ℚ) ^ fp.length
  | _ => 0

/-- Python `float(s)` restricted to the strings `parse_price` feeds it:
strings of digits and dots.  Such a string parses exactly when it has at
most one dot and at least one digit; otherwise `float` raises `ValueError`,
modelled by `none`. -/
def pyFloatDigitsDots (s : String) : Option ℚ :=
  if s.data.all isPriceChar && decide (s.data.count '.' ≤ 1) && s.data.any Char.isDigit then
    some (ratOfDigitsDots s.data)
  else none

/-- `MobileDataImporter.parse_price`.  The input is `none` for a pandas
NaN/absent cell (`pd.isna`), otherwise the string form of the cell value.
Returns `none` for the "no value" outcome (including the caught
`ValueError` on an unparseable remainder). -/
def parse_price (input : Option String) : Option ℚ :=
  match input with
  | none => none
  | some s =>
    if s = "" then none
    else
      let priceClean := stripNonDigitDot s
      if priceClean = "" then none
      else pyFloatDigitsDots priceClean

/-! ## Relational store (the PostgreSQL schema both programs talk to)

Tables are lists of rows; SERIAL ids come from sequences that live outside
the transactional table state.  The store enforces the schema constraints
the repository assumes: unique company/processor names, the uniqueness of
a `(model_id, region_id)` price pair, and the foreign keys. -/

inductive DbError where
  | uniqueViolation
  | fkViolation
  | invalidValue
deriving DecidableEq

structure ModelRow where
  model_id : Nat
  model_name : String
  company_id : Nat
  processor_id : Option Nat
  mobile_weight : Option String
  ram : Option String
  front_camera : Option String
  back_camera : Option String
  battery_capacity : Option String
  screen_size : Option String
  launched_year : Option Int
deriving DecidableEq

structure PriceRow where
  price_id : Nat
  model_id : Nat
  region_id : Nat
  price : ℚ
deriving DecidableEq

structure Store where
  companies : List (Nat × String)
  processors : List (Nat × String)
  regions : List (Nat × String)
  models : List ModelRow
  prices : List PriceRow
deriving DecidableEq

/-- The SERIAL sequences backing the four id columns. -/
structure Seq where
  company : Nat
  processor : Nat
  model : Nat
  price : Nat
deriving DecidableEq

/-- `SELECT company_id FROM companies WHERE company_name = name`. -/
def lookupCompany (s : Store) (name : String) : Option Nat :=
  (s.companies.find? (fun p => p.2 == name)).map Prod.fst

/-- `SELECT processor_id FROM processors WHERE processor_name = name`. -/
def lookupProcessor (s : Store) (name : String) : Option Nat :=
  (s.processors.find? (fun p => p.2 == name)).map Prod.fst

/-- `SELECT model_id FROM models WHERE model_name = %s AND company_id = %s`. -/
def lookupModel (s : Store) (name : String) (cid : Nat) : Option Nat :=
  (s.models.find? (fun m => m.model_name == name && m.company_id == cid)).map ModelRow.model_id

/-- The `(model_id, region_id)` pair test used by the price WHERE clauses
and the `ON CONFLICT` target. -/
def isPair (mid rid : Nat) (p : PriceRow) : Bool :=
  p.model_id == mid && p.region_id == rid

/-- `DO UPDATE SET price = EXCLUDED.price` applied to one row. -/
def setPrice (a : ℚ) (p : PriceRow) : PriceRow := { p with price := a }

/-- `SELECT price_id FROM prices WHERE model_id = %s AND region_id = %s`. -/
def lookupPrice (s : Store) (mid rid : Nat) : Option Nat :=
  (s.prices.find? (isPair mid rid)).map PriceRow.price_id

/-- `INSERT INTO companies (company_name) VALUES (%s) RETURNING company_id`,
with the unique constraint on names. -/
def insertCompany (s : Store) (q : Seq) (name : String) :
    Except DbError (Nat × Store × Seq) :=
  if s.companies.any (fun p => p.2 == name) then .error .uniqueViolation
  else .ok (q.company,
    { s with companies := s.companies ++ [(q.company, name)] },
    { q with company := q.company + 1 })

/-- `INSERT INTO processors (processor_name) VALUES (%s) RETURNING processor_id`,
with the unique constraint on names. -/
def insertProcessor (s : Store) (q : Seq) (name : String) :
    Except DbError (Nat × Store × Seq) :=
  if s.processors.any (fun p => p.2 == name) then .error .uniqueViolation
  else .ok (q.processor,
    { s with processors := s.processors ++ [(q.processor, name)] },
    { q with processor := q.processor + 1 })

/-- Foreign-key check for an optional processor reference. -/
def processorFkOk (s : Store) : Option Nat → Bool
  | none => true
  | some pid => s.processors.any (fun p => p.1 == pid)

/-- `INSERT INTO models (...) VALUES (...) RETURNING model_id`, with the
foreign keys on `company_id` and `processor_id`. -/
def insertModel (s : Store) (q : Seq) (name : String) (cid : Nat) (pid : Option Nat)
    (w r fc bc bat sc : Option String) (ly : Option Int) :
    Except DbError (Nat × Store × Seq) :=
  if !(s.companies.any (fun p => p.1 == cid)) then .error .fkViolation
  else if !(processorFkOk s pid) then .error .fkViolation
  else .ok (q.model,
    { s with models := s.models ++ [⟨q.model, name, cid, pid, w, r, fc, bc, bat, sc, ly⟩] },
    { q with model := q.model + 1 })

/-- `INSERT INTO prices (model_id, region_id, price) VALUES (%s, %s, %s)`,
with the foreign keys and the unique `(model_id, region_id)` constraint. -/
def insertPrice (s : Store) (q : Seq) (mid rid : Nat) (amount : ℚ) :
    Except DbError (Nat × Store × Seq) :=
  if !(s.models.any (fun m => m.model_id == mid)) then .error .fkViolation
  else if !(s.regions.any (fun r => r.1 == rid)) then .error .fkViolation
  else if s.prices.any (isPair mid rid) then
    .error .uniqueViolation
  else .ok (q.price,
    { s with prices := s.prices ++ [⟨q.price, mid, rid, amount⟩] },
    { q with price := q.price + 1 })

/-! ## Database facade (src/database.py, class `Database`)

A connection holds the committed store plus the sequences.  `get_cursor`
is the context manager of src/database.py lines 52-67: the body's
statements run against the store, a successful body commits (the new
store becomes the connection's store), and a raised failure rolls every
write of the block back (the connection keeps the store it had at block
entry) before the error propagates. -/

structure Conn where
  store : Store
  seq : Seq
deriving DecidableEq

/-- `Database.get_cursor`: run one transaction body; commit on success,
roll back on any error and re-raise. -/
def get_cursor {α : Type} (c : Conn)
    (body : Store → Seq → Except DbError (α × Store × Seq)) :
    Except DbError α × Conn :=
  match body c.store c.seq with
  | .ok (a, s, q) => (.ok a, ⟨s, q⟩)
  | .error e => (.error e, c)

/-- The `model_data` dictionary taken by `Database.add_model` and
`Database.update_model`. -/
structure ModelData where
  model_name : String
  company_id : Nat
  processor_name : Option String
  mobile_weight : Option String
  ram : Option String
  front_camera : Option String
  back_camera : Option String
  battery_capacity : Option String
  screen_size : Option String
  launched_year : Option Int
deriving DecidableEq

namespace Database

/-- `Database.add_company`: one `get_cursor` block around the INSERT. -/
def add_company (c : Conn) (name : String) : Except DbError Nat × Conn :=
  get_cursor c (fun s q => insertCompany s q name)

/-- `Database.get_or_create_processor`: one `get_cursor` block around the
SELECT and, on a miss, the INSERT. -/
def get_or_create_processor (c : Conn) (name : String) : Except DbError Nat × Conn :=
  get_cursor c (fun s q =>
    match lookupProcessor s name with
    | some pid => .ok (pid, s, q)
    | none =>
      match insertProcessor s q name with
      | .ok (pid, s2, q2) => .ok (pid, s2, q2)
      | .error e => .error e)

/-- The truthiness test `if model_data.get('processor_name'):` — `None`
and the empty string are falsy. -/
def truthyName : Option String → Bool
  | none => false
  | some s => !(s == "")

/-- `Database.add_model`: first resolves the processor name (when truthy)
through `get_or_create_processor` — a separate transaction that commits on
its own — then runs the model INSERT in a second `get_cursor` block. -/
def add_model (c : Conn) (d : ModelData) : Except DbError Nat × Conn :=
  let resolved : Except DbError (Option Nat) × Conn :=
    if truthyName d.processor_name then
      match get_or_create_processor c (d.processor_name.getD "") with
      | (.ok pid, c1) => (.ok (some pid), c1)
      | (.error e, c1) => (.error e, c1)
    else (.ok none, c)
  match resolved with
  | (.error e, c1) => (.error e, c1)
  | (.ok pid, c1) =>
    get_cursor c1 (fun s q =>
      insertModel s q d.model_name d.company_id pid d.mobile_weight d.ram
        d.front_camera d.back_camera d.battery_capacity d.screen_size d.launched_year)

/-- `UPDATE models SET ... WHERE model_id = %s` with foreign-key checks on
the updated row; updating a missing id is a successful no-op. -/
def updateModelRows (s : Store) (mid : Nat) (d : ModelData) (pid : Option Nat) :
    Except DbError Store :=
  if s.models.any (fun m => m.model_id == mid) then
    if !(s.companies.any (fun p => p.1 == d.company_id)) then .error .fkViolation
    else if !(processorFkOk s pid) then .error .fkViolation
    else .ok { s with models := s.models.map (fun m =>
      if m.model_id == mid then
        ⟨m.model_id, d.model_name, d.company_id, pid, d.mobile_weight, d.ram,
         d.front_camera, d.back_camera, d.battery_capacity, d.screen_size,
         d.launched_year⟩
      else m) }
  else .ok s

/-- `Database.update_model`: like `add_model`, processor resolution first
(its own committed transaction), then the UPDATE in a second block. -/
def update_model (c : Conn) (mid : Nat) (d : ModelData) : Except DbError Unit × Conn :=
  let resolved : Except DbError (Option Nat) × Conn :=
    if truthyName d.processor_name then
      match get_or_create_processor c (d.processor_name.getD "") with
      | (.ok pid, c1) => (.ok (some pid), c1)
      | (.error e, c1) => (.error e, c1)
    else (.ok none, c)
  match resolved with
  | (.error e, c1) => (.error e, c1)
  | (.ok pid, c1) =>
    get_cursor c1 (fun s q =>
      match updateModelRows s mid d pid with
      | .ok s2 => .ok ((), s2, q)
      | .error e => .error e)

/-- The body of `Database.add_or_update_price`:
`INSERT ... ON CONFLICT (model_id, region_id) DO UPDATE SET price = EXCLUDED.price`.
On a conflict the existing row's amount is overwritten in place. -/
def upsertPriceRows (s : Store) (q : Seq) (mid rid : Nat) (amount : ℚ) :
    Except DbError (Unit × Store × Seq) :=
  if !(s.models.any (fun m => m.model_id == mid)) then .error .fkViolation
  else if !(s.regions.any (fun r => r.1 == rid)) then .error .fkViolation
  else if s.prices.any (isPair mid rid) then
    .ok ((), { s with prices := s.prices.map (fun p =>
      if isPair mid rid p then setPrice amount p else p) }, q)
  else .ok ((), { s with prices := s.prices ++ [⟨q.price, mid, rid, amount⟩] },
    { q with price := q.price + 1 })

/-- `Database.add_or_update_price`: one `get_cursor` block around the upsert. -/
def add_or_update_price (c : Conn) (mid rid : Nat) (amount : ℚ) :
    Except DbError Unit × Conn :=
  get_cursor c (fun s q => upsertPriceRows s q mid rid amount)

end Database

/-! ## CSV importer (src/scripts/import_data.py, class `MobileDataImporter`)

The importer drives one psycopg2 connection with autocommit off: writes
accumulate in the pending (uncommitted) view, `conn.commit()` makes the
pending view the committed state, `conn.rollback()` discards the pending
view back to the committed state.  The in-memory caches, the Python
counter variables and the sequences are not transactional: a rollback
does not touch them.  `db_ops` counts the `cursor.execute` calls issued
against the store. -/

/-- One CSV row as `pandas` hands it to the import loop: a NaN cell is
`none`, every other cell the string form of its value.  The launch year
is kept raw because the code applies Python `int()` to it. -/
structure Row where
  companyName : Option String
  modelName : String
  processor : Option String
  mobileWeight : Option String
  ram : Option String
  frontCamera : Option String
  backCamera : Option String
  batteryCapacity : Option String
  screenSize : Option String
  launchedYear : Option String
  pricePakistan : Option String
  priceIndia : Option String
  priceChina : Option String
  priceUSA : Option String
  priceDubai : Option String
deriving DecidableEq

/-- Python `int(s)` on a string cell: optional surrounding whitespace and
an optional sign before the digits; anything else raises `ValueError`. -/
def pyInt (s : String) : Except DbError Int :=
  let t := ((s.data.dropWhile Char.isWhitespace).reverse.dropWhile Char.isWhitespace).reverse
  match t with
  | [] => .error .invalidValue
  | c :: rest =>
    if c = '-' then
      if rest ≠ [] ∧ rest.all Char.isDigit then .ok (-(digitsVal rest : Int))
      else .error .invalidValue
    else if c = '+' then
      if rest ≠ [] ∧ rest.all Char.isDigit then .ok (digitsVal rest : Int)
      else .error .invalidValue
    else if (c :: rest).all Char.isDigit then .ok (digitsVal (c :: rest) : Int)
    else .error .invalidValue

structure ImportState where
  committed : Store
  pending : Store
  seq : Seq
  company_cache : List (String × Nat)
  processor_cache : List (String × Nat)
  region_cache : List (String × Nat)
  models_count : Nat
  prices_count : Nat
  db_ops : Nat
deriving DecidableEq

namespace Importer

/-- One `cursor.execute` call issued. -/
def exec (st : ImportState) : ImportState := { st with db_ops := st.db_ops + 1 }

/-- `self.conn.commit()`. -/
def commit (st : ImportState) : ImportState := { st with committed := st.pending }

/-- `self.conn.rollback()`: the pending view reverts to the committed
state; caches, counters and sequences are untouched. -/
def rollback (st : ImportState) : ImportState := { st with pending := st.committed }

/-- `MobileDataImporter.get_or_create_company`.  A NaN company name
(`none`) is not in the cache and makes the parameterized SELECT raise a
type error in the store.  On a cache miss the pending view is queried
and, when the name is absent, the INSERT runs; the resolved id is cached. -/
def get_or_create_company (st : ImportState) :
    Option String → Except ImportState (Nat × ImportState)
  | none => .error (exec st)
  | some n =>
    match st.company_cache.lookup n with
    | some cid => .ok (cid, st)
    | none =>
      let st1 := exec st
      match lookupCompany st1.pending n with
      | some cid => .ok (cid, { st1 with company_cache := (n, cid) :: st1.company_cache })
      | none =>
        let st2 := exec st1
        match insertCompany st2.pending st2.seq n with
        | .ok (cid, s, q) =>
          .ok (cid, { st2 with pending := s, seq := q,
                                company_cache := (n, cid) :: st2.company_cache })
        | .error _ => .error st2

/-- `MobileDataImporter.get_or_create_processor`.  `pd.isna` or an empty
name short-circuits to `none` ("no processor") without touching the
store; otherwise cache, then SELECT, then INSERT, as for companies. -/
def get_or_create_processor (st : ImportState) :
    Option String → Except ImportState (Option Nat × ImportState)
  | none => .ok (none, st)
  | some n =>
    if n = "" then .ok (none, st)
    else
      match st.processor_cache.lookup n with
      | some pid => .ok (some pid, st)
      | none =>
        let st1 := exec st
        match lookupProcessor st1.pending n with
        | some pid => .ok (some pid, { st1 with processor_cache := (n, pid) :: st1.processor_cache })
        | none =>
          let st2 := exec st1
          match insertProcessor st2.pending st2.seq n with
          | .ok (pid, s, q) =>
            .ok (some pid, { st2 with pending := s, seq := q,
                                      processor_cache := (n, pid) :: st2.processor_cache })
          | .error _ => .error st2

/-- `MobileDataImporter.load_regions`: fill the region-name cache from the
regions table. -/
def load_regions (st : ImportState) : ImportState :=
  let st1 := exec st
  { st1 with region_cache := st1.pending.regions.map (fun r => (r.2, r.1)) }

/-- Step 3 of the per-row algorithm: look the model up by
`(model_name, company_id)`; on a miss evaluate the INSERT arguments
(where `int(row['Launched Year'])` can raise) and insert, counting the
new model. -/
def resolveModel (st : ImportState) (row : Row) (cid : Nat) (pid : Option Nat) :
    Except ImportState (Nat × ImportState) :=
  let st1 := exec st
  match lookupModel st1.pending row.modelName cid with
  | some mid => .ok (mid, st1)
  | none =>
    let ly : Except DbError (Option Int) :=
      match row.launchedYear with
      | none => .ok none
      | some ys =>
        match pyInt ys with
        | .ok v => .ok (some v)
        | .error e => .error e
    match ly with
    | .error _ => .error st1
    | .ok lyv =>
      let st2 := exec st1
      match insertModel st2.pending st2.seq row.modelName cid pid row.mobileWeight
          row.ram row.frontCamera row.backCamera row.batteryCapacity row.screenSize lyv with
      | .ok (mid, s, q) =>
        .ok (mid, { st2 with pending := s, seq := q, models_count := st2.models_count + 1 })
      | .error _ => .error st2

/-- One iteration of the price loop (step 4): parse the price cell; on a
value, look the region id up in the region cache (a missing region is a
`KeyError`), check whether a price row exists, and insert one when not,
counting it. -/
def priceStep (mid : Nat) (st : ImportState) (rc : String × Option String) :
    Except ImportState ImportState :=
  match parse_price rc.2 with
  | none => .ok st
  | some amount =>
    match st.region_cache.lookup rc.1 with
    | none => .error st
    | some rid =>
      let st1 := exec st
      match lookupPrice st1.pending mid rid with
      | some _ => .ok st1
      | none =>
        let st2 := exec st1
        match insertPrice st2.pending st2.seq mid rid amount with
        | .ok (_, s, q) =>
          .ok { st2 with pending := s, seq := q, prices_count := st2.prices_count + 1 }
        | .error _ => .error st2

/-- The five region/price-column pairs, in source order. -/
def priceColumns (row : Row) : List (String × Option String) :=
  [("Pakistan", row.pricePakistan), ("India", row.priceIndia),
   ("China", row.priceChina), ("USA", row.priceUSA), ("Dubai", row.priceDubai)]

def pricesLoop (mid : Nat) : ImportState → List (String × Option String) →
    Except ImportState ImportState
  | st, [] => .ok st
  | st, rc :: rest =>
    match priceStep mid st rc with
    | .ok st1 => pricesLoop mid st1 rest
    | .error st1 => .error st1

/-- The body of the `try:` block for one row (import_data.py lines
153-227, without the periodic commit): company, processor, model, then
the five prices.  An error carries the state at the raise point — the
partial pending writes, cache entries and counter increments made so
far. -/
def processRow (st : ImportState) (row : Row) : Except ImportState ImportState :=
  match get_or_create_company st row.companyName with
  | .error st1 => .error st1
  | .ok (cid, st1) =>
    match get_or_create_processor st1 row.processor with
    | .error st2 => .error st2
    | .ok (pid, st2) =>
      match resolveModel st2 row cid pid with
      | .error st3 => .error st3
      | .ok (mid, st3) => pricesLoop mid st3 (priceColumns row)

/-- One iteration of `for idx, row in df.iterrows()`: on success a
periodic commit every 100 rows; on an exception, log and roll back. -/
def importStep (st : ImportState) (idx : Nat) (row : Row) : ImportState :=
  match processRow st row with
  | .ok st1 => if (idx + 1) % 100 == 0 then commit st1 else st1
  | .error st1 => rollback st1

def importLoop : ImportState → Nat → List Row → ImportState
  | st, _, [] => st
  | st, idx, row :: rest => importLoop (importStep st idx row) (idx + 1) rest

/-- `MobileDataImporter.import_data`: load the regions, run the row loop
from index 0, and finish with the final commit. -/
def import_data (st : ImportState) (rows : List Row) : ImportState :=
  commit (importLoop (load_regions st) 0 rows)

/-- A fresh importer state over a given committed store, as after
`connect()`: empty caches, zero counters, pending equal to committed. -/
def mkInitial (s : Store) (q : Seq) : ImportState :=
  ⟨s, s, q, [], [], [], 0, 0, 0⟩

end Importer

/-! ## Concrete scenarios used by witnesses and counterexamples -/

/-- A store holding only the externally seeded region reference set. -/
def store0 : Store :=
  ⟨[], [], [(1, "Pakistan"), (2, "India"), (3, "China"), (4, "USA"), (5, "Dubai")], [], []⟩

def seq0 : Seq := ⟨1, 1, 1, 1⟩

/-- A well-formed CSV row: company Acme, model X1, processor Chip1,
launch year 2020, a Pakistan price. -/
def row1 : Row :=
  ⟨some "Acme", "X1", some "Chip1", none, none, none, none, none, none,
   some "2020", some "10000", none, none, none, none⟩

/-- A malformed CSV row: its launch year "20x5" makes `int()` raise while
the model INSERT arguments are being built. -/
def row2 : Row :=
  ⟨some "Acme", "X2", some "Chip1", none, none, none, none, none, none,
   some "20x5", some "20000", none, none, none, none⟩

/-- The importer state after `load_regions` on a fresh run over `store0`. -/
def st0 : ImportState := Importer.load_regions (Importer.mkInitial store0 seq0)

/-- The state after the full two-row import run `[row1, row2]`:
row 1 succeeds, row 2 raises, no periodic commit intervenes. -/
def runTwo : ImportState := Importer.import_data (Importer.mkInitial store0 seq0) [row1, row2]

/-- Whether the `try:` body of a row ran to completion. -/
def rowSucceeded : Except ImportState ImportState → Bool
  | .ok _ => true
  | .error _ => false

/-- The state after importing `row1` alone (index 0, no periodic commit). -/
def stAfter1 : ImportState := Importer.importStep st0 0 row1

/-- The state carried by the exception `row2` raises when processed after
`row1`. -/
def failSt2 : ImportState :=
  match Importer.processRow stAfter1 row2 with
  | .ok st => st
  | .error st => st

/-- The importer state a step ends in, whether it returned or raised. -/
def outState {α : Type} : Except ImportState (α × ImportState) → ImportState
  | .ok (_, st) => st
  | .error st => st

/-- Same, for steps that return no value. -/
def outState2 : Except ImportState ImportState → ImportState
  | .ok st => st
  | .error st => st

/-- The importer state after the `try:` body of one row, whether it ran to
completion or raised. -/
def afterRow (st : ImportState) (row : Row) : ImportState :=
  outState2 (Importer.processRow st row)

/-- What any fragment of the per-row import code preserves between the
state it starts in and the state it ends in (returning or raising): the
committed store is untouched (only `commit`/`rollback` touch it), the
pending models and prices tables only grow at the end (rows are never
updated or deleted), the name caches only grow, and the two summary
counters never decrease. -/
def StepFrame (st st1 : ImportState) : Prop :=
  st1.committed = st.committed ∧
  st.pending.models <+: st1.pending.models ∧
  st.pending.prices <+: st1.pending.prices ∧
  st.company_cache <:+ st1.company_cache ∧
  st.processor_cache <:+ st1.processor_cache ∧
  st.models_count ≤ st1.models_count ∧
  st.prices_count ≤ st1.prices_count

/-- A connection over `store0` (no companies, no processors). -/
def conn0 : Conn := ⟨store0, seq0⟩

/-- Model data naming a new processor "ChipX" and the dangling company id
7: `add_model` will commit the processor insert, then fail the model
INSERT on the company foreign key. -/
def badModelData : ModelData :=
  ⟨"X1", 7, some "ChipX", none, none, none, none, none, none, none⟩

/-- The `(model_id, region_id)` uniqueness invariant on the prices table. -/
def PriceUnique (s : Store) : Prop :=
  s.prices.Pairwise (fun p q => ¬(p.model_id = q.model_id ∧ p.region_id = q.region_id))

instance (s : Store) : Decidable (PriceUnique s) := by
  unfold PriceUnique; infer_instance

/-- The amounts carried by the price rows for one `(model, region)` pair. -/
def amountsFor (s : Store) (mid rid : Nat) : List ℚ :=
  (s.prices.filter (isPair mid rid)).map PriceRow.price

/-- A decimal numeral as Python `float` accepts it after stripping:
digits and at most one dot, with at least one digit. -/
def validNumeral (s : String) : Bool :=
  s.data.all isPriceChar && decide (s.data.count '.' ≤ 1) && s.data.any Char.isDigit

/-- A connection with one model under one company, one region, and no
price rows: the base state for the upsert scenario. -/
def connUpsert : Conn :=
  ⟨⟨[(1, "Acme")], [], [(1, "Pakistan")],
    [⟨1, "X1", 1, none, none, none, none, none, none, none, none⟩], []⟩, ⟨2, 1, 2, 1⟩⟩

/-! # Theorems -/

/-! ## Price parser lemmas -/

theorem stripNonDigitDot_data (s : String) :
    (stripNonDigitDot s).data = s.data.filter isPriceChar := rfl

theorem digitsVal_cast_nonneg (l : List Char) : (0 : ℚ) ≤ (digitsVal l : ℚ) := by
  exact_mod_cast Nat.zero_le _

theorem ratOfDigitsDots_nonneg (l : List Char) : 0 ≤ ratOfDigitsDots l := by
  unfold ratOfDigitsDots
  rcases h : l.splitOn '.' with _ | ⟨ip, _ | ⟨fp, _ | _⟩⟩ <;> positivity

theorem parse_price_nonneg (inp : Option String) (q : ℚ)
    (h : parse_price inp = some q) : 0 ≤ q := by
  unfold parse_price at h
  rcases inp with _ | s
  · exact absurd h (by simp)
  · simp only at h
    split at h
    · exact absurd h (by simp)
    · split at h
      · exact absurd h (by simp)
      · unfold pyFloatDigitsDots at h
        split at h
        · rw [Option.some_inj] at h
          exact h ▸ ratOfDigitsDots_nonneg _
        · exact absurd h (by simp)

theorem parse_price_no_digit (s : String)
    (h : ∀ c ∈ s.data, c.isDigit = false) : parse_price (some s) = none := by
  unfold parse_price
  simp only
  split
  · rfl
  · split
    · rfl
    · unfold pyFloatDigitsDots
      have hany : (stripNonDigitDot s).data.any Char.isDigit = false := by
        rw [stripNonDigitDot_data, List.any_eq_false]
        intro c hc
        simp only [Bool.not_eq_true]
        exact h c (List.mem_of_mem_filter hc)
      simp [hany]

theorem parse_price_of_valid_strip (s : String)
    (h1 : (stripNonDigitDot s).data.count '.' ≤ 1)
    (h2 : (stripNonDigitDot s).data.any Char.isDigit = true) :
    parse_price (some s) = some (ratOfDigitsDots (stripNonDigitDot s).data) := by
  have hne : s ≠ "" := by
    intro he
    rw [he] at h2
    simp [stripNonDigitDot] at h2
  have hcne : stripNonDigitDot s ≠ "" := by
    intro he
    rw [he] at h2
    simp at h2
  have hall : (stripNonDigitDot s).data.all isPriceChar = true := by
    rw [stripNonDigitDot_data, List.all_eq_true]
    intro c hc
    exact List.of_mem_filter hc
  unfold parse_price pyFloatDigitsDots
  simp only [hne, if_false, hcne, if_false]
  rw [if_pos]
  simp [hall, h1, h2]

theorem stripNonDigitDot_append (a b : String) :
    stripNonDigitDot (a ++ b) = stripNonDigitDot a ++ stripNonDigitDot b := by
  apply String.ext
  rw [String.data_append, stripNonDigitDot_data]
  rw [String.data_append, stripNonDigitDot_data, stripNonDigitDot_data]
  exact List.filter_append _ _

theorem stripNonDigitDot_of_all (s : String) (h : s.data.all isPriceChar = true) :
    stripNonDigitDot s = s := by
  apply String.ext
  rw [stripNonDigitDot_data]
  rw [List.all_eq_true] at h
  exact List.filter_eq_self.mpr h

theorem stripNonDigitDot_of_none (s : String) (h : ∀ c ∈ s.data, isPriceChar c = false) :
    stripNonDigitDot s = "" := by
  apply String.ext
  rw [stripNonDigitDot_data]
  exact List.filter_eq_nil_iff.mpr (by intro c hc; rw [h c hc]; exact Bool.false_ne_true)

/-! ## Claims about the price parser -/

/-- C3: `parse_price` accepts a value of any shape — null/absent (`none`),
empty, a plain number, or an arbitrary string — and always returns either
a non-negative decimal amount or the "no value" result `none` (it is a
total function: every raised `ValueError` is caught); and on every string
with no digit at all (only currency symbols, separators, whitespace) it
returns `none`. -/
theorem C3_parse_price_safe :
    (∀ inp q, parse_price inp = some q → 0 ≤ q) ∧
    (∀ s, (∀ c ∈ s.data, c.isDigit = false) → parse_price (some s) = none) := by
  exact ⟨parse_price_nonneg, parse_price_no_digit⟩

theorem C3_parse_price_safe_witness :
    ((0 : ℚ) ≤ 7) ∧ parse_price (some "$ ,") = none :=
  ⟨C3_parse_price_safe.1 (some "7") 7 (by decide),
   C3_parse_price_safe.2 "$ ," (by decide)⟩

/-- C4: when the digit/dot stripping of a price string leaves a valid
decimal numeral (at most one dot, at least one digit), `parse_price`
returns that numeral's exact value; in particular a valid numeral
surrounded by arbitrary non-digit, non-dot noise is returned exactly;
and a string whose stripped remainder has two or more dots fails to
parse and yields "no value". -/
theorem C4_parse_price_values :
    (∀ s, (stripNonDigitDot s).data.count '.' ≤ 1 →
      (stripNonDigitDot s).data.any Char.isDigit = true →
      parse_price (some s) = some (ratOfDigitsDots (stripNonDigitDot s).data)) ∧
    (∀ pre num post, (∀ c ∈ pre.data, isPriceChar c = false) →
      (∀ c ∈ post.data, isPriceChar c = false) → validNumeral num = true →
      parse_price (some (pre ++ num ++ post)) = some (ratOfDigitsDots num.data)) ∧
    (∀ s, 2 ≤ (stripNonDigitDot s).data.count '.' → parse_price (some s) = none) := by
  refine ⟨parse_price_of_valid_strip, ?_, ?_⟩
  · intro pre num post hpre hpost hnum
    rw [validNumeral, Bool.and_eq_true, Bool.and_eq_true] at hnum
    obtain ⟨⟨hall, hcount⟩, hdig⟩ := hnum
    have hstrip : stripNonDigitDot (pre ++ num ++ post) = num := by
      rw [stripNonDigitDot_append, stripNonDigitDot_append]
      rw [stripNonDigitDot_of_none pre hpre, stripNonDigitDot_of_none post hpost]
      rw [stripNonDigitDot_of_all num hall]
      simp
    rw [parse_price_of_valid_strip _ (by rw [hstrip]; exact of_decide_eq_true hcount)
      (by rw [hstrip]; exact hdig), hstrip]
  · intro s hs
    unfold parse_price pyFloatDigitsDots
    simp only
    split
    · rfl
    · split
      · rfl
      · rw [if_neg]
        simp only [Bool.and_eq_true, decide_eq_true_eq, not_and]
        intro _ hc
        omega

theorem C4_parse_price_values_witness :
    parse_price (some "₨ 85,000.00") = some 85000 ∧
    parse_price (some ("Rs " ++ "1200.50" ++ " only")) = some (2401 / 2 : ℚ) ∧
    parse_price (some "1.200.50") = none := by
  refine ⟨?_, ?_, C4_parse_price_values.2.2 "1.200.50" (by decide)⟩
  · rw [C4_parse_price_values.1 "₨ 85,000.00" (by decide) (by decide)]
    have h : List.splitOn '.' (stripNonDigitDot "₨ 85,000.00").data =
        [['8', '5', '0', '0', '0'], ['0', '0']] := by rfl
    have h2 : digitsVal ['8', '5', '0', '0', '0'] = 85000 := by decide
    have h3 : digitsVal ['0', '0'] = 0 := by decide
    simp [ratOfDigitsDots, h, h2, h3]
  · rw [C4_parse_price_values.2.1 "Rs " "1200.50" " only" (by decide) (by decide) (by decide)]
    have h : List.splitOn '.' ("1200.50" : String).data = [['1', '2', '0', '0'], ['5', '0']] := by
      rfl
    have h2 : digitsVal ['1', '2', '0', '0'] = 1200 := by decide
    have h3 : digitsVal ['5', '0'] = 50 := by decide
    simp [ratOfDigitsDots, h, h2, h3]
    norm_num

/-- C9: the stripping step removes sign characters along with all other
non-digit, non-dot characters, so the string "-500" parses to the
positive amount 500 rather than a negative value or "no value"; and no
input whatsoever makes `parse_price` return a negative amount. -/
theorem C9_parse_price_sign_stripped :
    parse_price (some "-500") = some 500 ∧
    (∀ inp q, parse_price inp = some q → 0 ≤ q) :=
  ⟨by decide, parse_price_nonneg⟩

theorem C9_parse_price_sign_stripped_witness : (0 : ℚ) ≤ 500 :=
  C9_parse_price_sign_stripped.2 (some "-500") 500 C9_parse_price_sign_stripped.1

/-! ## Reference-data normalizer: cache behaviour -/

theorem gocc_lookup (st : ImportState) (n : String) (cid : Nat) (st1 : ImportState)
    (h : Importer.get_or_create_company st (some n) = .ok (cid, st1)) :
    st1.company_cache.lookup n = some cid := by
  simp only [Importer.get_or_create_company] at h
  split at h
  · rename_i c heq
    simp only [Except.ok.injEq, Prod.mk.injEq] at h
    obtain ⟨h1, h2⟩ := h
    subst h1; subst h2
    exact heq
  · split at h
    · simp only [Except.ok.injEq, Prod.mk.injEq] at h
      obtain ⟨h1, h2⟩ := h
      subst h1
      rw [← h2]
      simp [List.lookup]
    · split at h
      · simp only [Except.ok.injEq, Prod.mk.injEq] at h
        obtain ⟨h1, h2⟩ := h
        subst h1
        rw [← h2]
        simp [List.lookup]
      · exact absurd h (by simp)

theorem gocp_lookup (st : ImportState) (n : String) (pid : Nat) (st1 : ImportState)
    (h : Importer.get_or_create_processor st (some n) = .ok (some pid, st1)) :
    n ≠ "" ∧ st1.processor_cache.lookup n = some pid := by
  simp only [Importer.get_or_create_processor] at h
  split at h
  · simp at h
  · rename_i hne
    refine ⟨hne, ?_⟩
    split at h
    · rename_i p heq
      simp only [Except.ok.injEq, Prod.mk.injEq, Option.some.injEq] at h
      obtain ⟨h1, h2⟩ := h
      subst h1; subst h2
      exact heq
    · split at h
      · simp only [Except.ok.injEq, Prod.mk.injEq, Option.some.injEq] at h
        obtain ⟨h1, h2⟩ := h
        subst h1
        rw [← h2]
        simp [List.lookup]
      · split at h
        · simp only [Except.ok.injEq, Prod.mk.injEq, Option.some.injEq] at h
          obtain ⟨h1, h2⟩ := h
          subst h1
          rw [← h2]
          simp [List.lookup]
        · exact absurd h (by simp)

/-- C5: within one run, resolving a company name a second time is served
entirely from the in-memory cache — the importer state (including its
`db_ops` query count) is left exactly as it was and the identity returned
is the one the first call produced; likewise for processor names; and a
null (`pd.isna`) or empty processor name short-circuits to "no processor"
with the state untouched (no query, no insert). -/
theorem C5_normalizer_cache :
    (∀ st n cid st1, Importer.get_or_create_company st (some n) = .ok (cid, st1) →
      Importer.get_or_create_company st1 (some n) = .ok (cid, st1)) ∧
    (∀ st n pid st1, Importer.get_or_create_processor st (some n) = .ok (some pid, st1) →
      Importer.get_or_create_processor st1 (some n) = .ok (some pid, st1)) ∧
    (∀ st, Importer.get_or_create_processor st none = .ok (none, st)) ∧
    (∀ st, Importer.get_or_create_processor st (some "") = .ok (none, st)) := by
  refine ⟨?_, ?_, fun _ => rfl,
    fun st => by simp [Importer.get_or_create_processor]⟩
  · intro st n cid st1 h
    have hl := gocc_lookup st n cid st1 h
    simp only [Importer.get_or_create_company]
    rw [hl]
  · intro st n pid st1 h
    obtain ⟨hne, hl⟩ := gocp_lookup st n pid st1 h
    simp only [Importer.get_or_create_processor]
    rw [if_neg hne, hl]

theorem C5_normalizer_cache_witness :
    Importer.get_or_create_company runTwo (some "Acme") = .ok (1, runTwo) ∧
    Importer.get_or_create_processor runTwo (some "Chip1") = .ok (some 1, runTwo) ∧
    Importer.get_or_create_processor runTwo none = .ok (none, runTwo) :=
  ⟨C5_normalizer_cache.1 runTwo "Acme" 1 runTwo (by decide),
   C5_normalizer_cache.2.1 runTwo "Chip1" 1 runTwo (by decide),
   C5_normalizer_cache.2.2.1 runTwo⟩

/-! ## Catalog Store price upsert -/

theorem isPair_iff (mid rid : Nat) (p : PriceRow) :
    isPair mid rid p = true ↔ p.model_id = mid ∧ p.region_id = rid := by
  simp [isPair]

theorem isPair_setPrice (mid rid : Nat) (a : ℚ) (p : PriceRow) :
    isPair mid rid (setPrice a p) = isPair mid rid p := rfl

theorem setPrice_ids (a : ℚ) (p : PriceRow) :
    (setPrice a p).model_id = p.model_id ∧ (setPrice a p).region_id = p.region_id ∧
    (setPrice a p).price = a := ⟨rfl, rfl, rfl⟩

theorem pair_filter_single (mid rid : Nat) (l : List PriceRow)
    (hu : l.Pairwise (fun p q => ¬(p.model_id = q.model_id ∧ p.region_id = q.region_id)))
    (ha : l.any (isPair mid rid) = true) :
    ∃ p0, l.filter (isPair mid rid) = [p0] ∧ p0.model_id = mid ∧ p0.region_id = rid := by
  induction l with
  | nil => simp at ha
  | cons x t ih =>
    rw [List.pairwise_cons] at hu
    obtain ⟨hx, hu'⟩ := hu
    by_cases hp : isPair mid rid x = true
    · obtain ⟨he1, he2⟩ := (isPair_iff mid rid x).mp hp
      refine ⟨x, ?_, he1, he2⟩
      rw [List.filter_cons_of_pos hp]
      have ht : t.filter (isPair mid rid) = [] := by
        rw [List.filter_eq_nil_iff]
        intro b hb hbp
        obtain ⟨hb1, hb2⟩ := (isPair_iff mid rid b).mp hbp
        exact hx b hb ⟨he1.trans hb1.symm, he2.trans hb2.symm⟩
      rw [ht]
    · rw [List.any_cons, Bool.or_eq_true] at ha
      rcases ha with ha | ha
      · exact absurd ha hp
      · obtain ⟨p0, h1, h2⟩ := ih hu' ha
        exact ⟨p0, by rw [List.filter_cons_of_neg hp]; exact h1, h2⟩

theorem filter_map_setPrice (mid rid : Nat) (a : ℚ) (l : List PriceRow) :
    (l.map (fun p => if isPair mid rid p then setPrice a p else p)).filter (isPair mid rid) =
    (l.filter (isPair mid rid)).map (setPrice a) := by
  induction l with
  | nil => rfl
  | cons x t ih =>
    rw [List.map_cons]
    by_cases hp : isPair mid rid x = true
    · rw [if_pos hp, List.filter_cons_of_pos ((isPair_setPrice mid rid a x).trans hp),
        List.filter_cons_of_pos hp, List.map_cons, ih]
    · rw [if_neg hp, List.filter_cons_of_neg hp, List.filter_cons_of_neg hp, ih]

theorem any_map_setPrice (mid rid : Nat) (a : ℚ) (l : List PriceRow) :
    (l.map (fun p => if isPair mid rid p then setPrice a p else p)).any (isPair mid rid) =
    l.any (isPair mid rid) := by
  induction l with
  | nil => rfl
  | cons x t ih =>
    rw [List.map_cons, List.any_cons, List.any_cons, ih]
    by_cases hp : isPair mid rid x = true
    · rw [if_pos hp, (isPair_setPrice mid rid a x).trans hp, hp]
    · rw [if_neg hp]

theorem unique_map_setPrice (mid rid : Nat) (a : ℚ) (l : List PriceRow)
    (hu : l.Pairwise (fun p q => ¬(p.model_id = q.model_id ∧ p.region_id = q.region_id))) :
    (l.map (fun p => if isPair mid rid p then setPrice a p else p)).Pairwise
      (fun p q => ¬(p.model_id = q.model_id ∧ p.region_id = q.region_id)) := by
  rw [List.pairwise_map]
  refine hu.imp ?_
  intro p q hpq
  by_cases h1 : isPair mid rid p = true <;> by_cases h2 : isPair mid rid q = true <;>
    simp [h1, h2, setPrice, hpq]

/-- What `Database.add_or_update_price` does when the foreign keys hold:
it succeeds, leaves every other table alone, and either updates the
matching rows' amounts in place (conflict) or appends one new row. -/
theorem upsert_characterization (c : Conn) (mid rid : Nat) (a : ℚ)
    (hm : c.store.models.any (fun m => m.model_id == mid) = true)
    (hr : c.store.regions.any (fun r => r.1 == rid) = true) :
    (Database.add_or_update_price c mid rid a).1 = .ok () ∧
    (Database.add_or_update_price c mid rid a).2.store.models = c.store.models ∧
    (Database.add_or_update_price c mid rid a).2.store.regions = c.store.regions ∧
    (Database.add_or_update_price c mid rid a).2.store.prices =
      (if c.store.prices.any (isPair mid rid) then
        c.store.prices.map (fun p => if isPair mid rid p then setPrice a p else p)
      else c.store.prices ++ [⟨c.seq.price, mid, rid, a⟩]) := by
  unfold Database.add_or_update_price get_cursor Database.upsertPriceRows
  by_cases hany : c.store.prices.any (isPair mid rid) = true
  · simp only [hm, hr, Bool.not_true, Bool.false_eq_true, if_false, hany, if_true]
    refine ⟨?_, ?_, ?_, ?_⟩ <;> trivial
  · rw [Bool.not_eq_true] at hany
    simp only [hm, hr, Bool.not_true, Bool.false_eq_true, if_false, hany]
    refine ⟨?_, ?_, ?_, ?_⟩ <;> trivial

theorem upsert_fk_fail (c : Conn) (mid rid : Nat) (a : ℚ)
    (h : (c.store.models.any fun m => m.model_id == mid) = false ∨
      (c.store.regions.any fun r => r.1 == rid) = false) :
    (Database.add_or_update_price c mid rid a).2 = c := by
  unfold Database.add_or_update_price get_cursor Database.upsertPriceRows
  rcases h with h | h
  · simp only [h, Bool.not_false, if_true]
  · by_cases h1 : (!(c.store.models.any fun m => m.model_id == mid)) = true
    · simp only [h1, if_true]
    · have h2 : (c.store.models.any fun m => m.model_id == mid) = true := by
        revert h1
        cases c.store.models.any fun m => m.model_id == mid <;> simp
      simp only [h2, Bool.not_true, Bool.false_eq_true, if_false, h, Bool.not_false, if_true]

/-- C6: upserting a price through the Catalog Store preserves the
`(model, region)` uniqueness invariant; when no row exists for the pair,
the first call inserts one carrying its amount; and upserting twice with
two amounts leaves exactly one row for the pair, carrying the second
amount (each later call overwrites in place). -/
theorem C6_price_upsert :
    (∀ c mid rid a, PriceUnique c.store →
      PriceUnique (Database.add_or_update_price c mid rid a).2.store) ∧
    (∀ c mid rid a, c.store.models.any (fun m => m.model_id == mid) = true →
      c.store.regions.any (fun r => r.1 == rid) = true →
      lookupPrice c.store mid rid = none →
      (Database.add_or_update_price c mid rid a).1 = .ok () ∧
      amountsFor (Database.add_or_update_price c mid rid a).2.store mid rid = [a]) ∧
    (∀ c mid rid a1 a2, c.store.models.any (fun m => m.model_id == mid) = true →
      c.store.regions.any (fun r => r.1 == rid) = true →
      PriceUnique c.store →
      amountsFor (Database.add_or_update_price
        (Database.add_or_update_price c mid rid a1).2 mid rid a2).2.store mid rid = [a2]) := by
  have hpres : ∀ c mid rid a, PriceUnique c.store →
      PriceUnique (Database.add_or_update_price c mid rid a).2.store := by
    intro c mid rid a hu
    by_cases hm : (c.store.models.any fun m => m.model_id == mid) = true
    · by_cases hr : (c.store.regions.any fun r => r.1 == rid) = true
      · obtain ⟨-, -, -, hprices⟩ := upsert_characterization c mid rid a hm hr
        unfold PriceUnique
        rw [hprices]
        by_cases hany : c.store.prices.any (isPair mid rid) = true
        · rw [if_pos hany]
          exact unique_map_setPrice mid rid a _ hu
        · rw [if_neg hany]
          rw [List.pairwise_append]
          rw [Bool.not_eq_true, List.any_eq_false] at hany
          refine ⟨hu, by simp, ?_⟩
          intro p hp b hb
          rw [List.mem_singleton] at hb
          subst hb
          intro ⟨he1, he2⟩
          exact hany p hp ((isPair_iff mid rid p).mpr ⟨he1, he2⟩)
      · rw [upsert_fk_fail c mid rid a (Or.inr (by rwa [Bool.not_eq_true] at hr))]
        exact hu
    · rw [upsert_fk_fail c mid rid a (Or.inl (by rwa [Bool.not_eq_true] at hm))]
      exact hu
  refine ⟨hpres, ?_, ?_⟩
  · intro c mid rid a hm hr hnone
    obtain ⟨hok, -, -, hprices⟩ := upsert_characterization c mid rid a hm hr
    have hany : c.store.prices.any (isPair mid rid) = false := by
      rw [List.any_eq_false]
      intro p hp
      unfold lookupPrice at hnone
      rw [Option.map_eq_none'] at hnone
      rw [List.find?_eq_none] at hnone
      exact fun hc => hnone p hp hc
    rw [hany] at hprices
    simp only [Bool.false_eq_true, if_false] at hprices
    refine ⟨hok, ?_⟩
    unfold amountsFor
    rw [hprices, List.filter_append]
    have h1 : c.store.prices.filter (isPair mid rid) = [] := by
      rw [List.filter_eq_nil_iff]
      rw [List.any_eq_false] at hany
      exact hany
    rw [h1]
    have h2 : isPair mid rid ⟨c.seq.price, mid, rid, a⟩ = true := by
      simp [isPair]
    rw [List.nil_append, List.filter_cons_of_pos h2]
    rfl
  · intro c mid rid a1 a2 hm hr hu
    obtain ⟨-, hmodels1, hregions1, hprices1⟩ := upsert_characterization c mid rid a1 hm hr
    set c1 := (Database.add_or_update_price c mid rid a1).2 with hc1
    have hm1 : c1.store.models.any (fun m => m.model_id == mid) = true := by
      rw [hmodels1]; exact hm
    have hr1 : c1.store.regions.any (fun r => r.1 == rid) = true := by
      rw [hregions1]; exact hr
    obtain ⟨-, -, -, hprices2⟩ := upsert_characterization c1 mid rid a2 hm1 hr1
    have hany1 : c1.store.prices.any (isPair mid rid) = true := by
      rw [hprices1]
      split
      · rename_i hany0
        rw [any_map_setPrice]
        exact hany0
      · rw [List.any_append]
        have h2 : isPair mid rid ⟨c.seq.price, mid, rid, a1⟩ = true := by
          simp [isPair]
        simp [h2]
    have hu1 : PriceUnique c1.store := hpres c mid rid a1 hu
    rw [hany1] at hprices2
    simp only [eq_self_iff_true, if_true] at hprices2
    unfold amountsFor
    rw [hprices2, filter_map_setPrice]
    obtain ⟨p0, hp0, -, -⟩ := pair_filter_single mid rid c1.store.prices hu1 hany1
    rw [hp0]
    rfl

theorem C6_price_upsert_witness :
    (Database.add_or_update_price connUpsert 1 1 10).1 = .ok () ∧
    amountsFor (Database.add_or_update_price connUpsert 1 1 10).2.store 1 1 = [10] ∧
    amountsFor (Database.add_or_update_price
      (Database.add_or_update_price connUpsert 1 1 10).2 1 1 20).2.store 1 1 = [20] ∧
    PriceUnique (Database.add_or_update_price connUpsert 1 1 10).2.store :=
  ⟨(C6_price_upsert.2.1 connUpsert 1 1 10 (by decide) (by decide) (by decide)).1,
   (C6_price_upsert.2.1 connUpsert 1 1 10 (by decide) (by decide) (by decide)).2,
   C6_price_upsert.2.2 connUpsert 1 1 10 20 (by decide) (by decide) (by decide),
   C6_price_upsert.1 connUpsert 1 1 10 (by decide)⟩

/-! ## Catalog Store transaction discipline -/

theorem get_cursor_error {α : Type} (c : Conn)
    (body : Store → Seq → Except DbError (α × Store × Seq)) (e : DbError)
    (h : (get_cursor c body).1 = .error e) : (get_cursor c body).2 = c := by
  unfold get_cursor at h ⊢
  cases hb : body c.store c.seq with
  | ok v => rw [hb] at h; exact absurd h (by simp)
  | error e2 => rfl

/-- `Database.get_or_create_processor` touches no table except
`processors`, whatever its outcome. -/
theorem gocp_db_frame (c : Conn) (n : String) :
    (Database.get_or_create_processor c n).2.store.models = c.store.models ∧
    (Database.get_or_create_processor c n).2.store.prices = c.store.prices ∧
    (Database.get_or_create_processor c n).2.store.companies = c.store.companies ∧
    (Database.get_or_create_processor c n).2.store.regions = c.store.regions := by
  unfold Database.get_or_create_processor get_cursor
  cases h : lookupProcessor c.store n with
  | some pid => simp [h]
  | none =>
    simp only [h]
    unfold insertProcessor
    by_cases hd : c.store.processors.any (fun p => p.2 == n) = true
    · simp [hd]
    · simp [hd]

theorem add_model_error_frame (c : Conn) (d : ModelData) (e : DbError)
    (h : (Database.add_model c d).1 = .error e) :
    (Database.add_model c d).2.store.models = c.store.models ∧
    (Database.add_model c d).2.store.prices = c.store.prices ∧
    (Database.add_model c d).2.store.companies = c.store.companies := by
  by_cases ht : Database.truthyName d.processor_name = true
  · simp only [Database.add_model, ht, if_true] at h ⊢
    have hframe := gocp_db_frame c (d.processor_name.getD "")
    rcases hg : Database.get_or_create_processor c (d.processor_name.getD "") with ⟨r, c1⟩
    rw [hg] at hframe h
    cases r with
    | error e2 =>
      exact ⟨hframe.1, hframe.2.1, hframe.2.2.1⟩
    | ok pid =>
      have h2 := get_cursor_error c1 (fun s q =>
        insertModel s q d.model_name d.company_id (some pid) d.mobile_weight d.ram
          d.front_camera d.back_camera d.battery_capacity d.screen_size d.launched_year) e h
      exact ⟨(congrArg (fun cc => cc.store.models) h2).trans hframe.1,
        (congrArg (fun cc => cc.store.prices) h2).trans hframe.2.1,
        (congrArg (fun cc => cc.store.companies) h2).trans hframe.2.2.1⟩
  · simp only [Database.add_model, ht, Bool.false_eq_true, if_false] at h ⊢
    have h2 := get_cursor_error c (fun s q =>
      insertModel s q d.model_name d.company_id none d.mobile_weight d.ram
        d.front_camera d.back_camera d.battery_capacity d.screen_size d.launched_year) e h
    exact ⟨congrArg (fun cc => cc.store.models) h2,
      congrArg (fun cc => cc.store.prices) h2,
      congrArg (fun cc => cc.store.companies) h2⟩

theorem update_model_error_frame (c : Conn) (mid : Nat) (d : ModelData) (e : DbError)
    (h : (Database.update_model c mid d).1 = .error e) :
    (Database.update_model c mid d).2.store.models = c.store.models ∧
    (Database.update_model c mid d).2.store.prices = c.store.prices ∧
    (Database.update_model c mid d).2.store.companies = c.store.companies := by
  by_cases ht : Database.truthyName d.processor_name = true
  · simp only [Database.update_model, ht, if_true] at h ⊢
    have hframe := gocp_db_frame c (d.processor_name.getD "")
    rcases hg : Database.get_or_create_processor c (d.processor_name.getD "") with ⟨r, c1⟩
    rw [hg] at hframe h
    cases r with
    | error e2 =>
      exact ⟨hframe.1, hframe.2.1, hframe.2.2.1⟩
    | ok pid =>
      have h2 := get_cursor_error c1 (fun s q =>
        match Database.updateModelRows s mid d (some pid) with
        | .ok s2 => .ok ((), s2, q)
        | .error e => .error e) e h
      exact ⟨(congrArg (fun cc => cc.store.models) h2).trans hframe.1,
        (congrArg (fun cc => cc.store.prices) h2).trans hframe.2.1,
        (congrArg (fun cc => cc.store.companies) h2).trans hframe.2.2.1⟩
  · simp only [Database.update_model, ht, Bool.false_eq_true, if_false] at h ⊢
    have h2 := get_cursor_error c (fun s q =>
      match Database.updateModelRows s mid d none with
      | .ok s2 => .ok ((), s2, q)
      | .error e => .error e) e h
    exact ⟨congrArg (fun cc => cc.store.models) h2,
      congrArg (fun cc => cc.store.prices) h2,
      congrArg (fun cc => cc.store.companies) h2⟩

/-- C2 counterexample: `add_model` over an empty store, with a new
processor name and a dangling company id, raises a foreign-key failure —
yet the store is NOT left unchanged: the processor row committed by the
separate processor-resolution transaction survives the error. -/
theorem C2_counterexample :
    (Database.add_model conn0 badModelData).1 = .error .fkViolation ∧
    (Database.add_model conn0 badModelData).2 ≠ conn0 ∧
    (Database.add_model conn0 badModelData).2.store.processors = [(1, "ChipX")] ∧
    conn0.store.processors = [] := by
  refine ⟨by decide, by decide, by decide, rfl⟩

/-- C2 amended: every `get_cursor` block is one transaction — on any
raised failure the whole block's writes are rolled back (the connection
is exactly as it was at block entry) before the error propagates, so the
single-block operations (`add_company`, `add_or_update_price`,
`get_or_create_processor`) leave the store unchanged on failure.  But
`add_model` and `update_model` resolve the processor name in a separate,
earlier transaction that commits on its own: when their model write
fails, the models, prices and companies tables are unchanged while the
already-committed processor insert may persist. -/
theorem C2_transactions :
    (∀ (α : Type) (c : Conn) (body : Store → Seq → Except DbError (α × Store × Seq))
      (e : DbError), (get_cursor c body).1 = .error e → (get_cursor c body).2 = c) ∧
    (∀ c n e, (Database.add_company c n).1 = .error e → (Database.add_company c n).2 = c) ∧
    (∀ c mid rid a e, (Database.add_or_update_price c mid rid a).1 = .error e →
      (Database.add_or_update_price c mid rid a).2 = c) ∧
    (∀ c n e, (Database.get_or_create_processor c n).1 = .error e →
      (Database.get_or_create_processor c n).2 = c) ∧
    (∀ c d e, (Database.add_model c d).1 = .error e →
      (Database.add_model c d).2.store.models = c.store.models ∧
      (Database.add_model c d).2.store.prices = c.store.prices ∧
      (Database.add_model c d).2.store.companies = c.store.companies) ∧
    (∀ c mid d e, (Database.update_model c mid d).1 = .error e →
      (Database.update_model c mid d).2.store.models = c.store.models ∧
      (Database.update_model c mid d).2.store.prices = c.store.prices ∧
      (Database.update_model c mid d).2.store.companies = c.store.companies) := by
  refine ⟨fun α c body e h => get_cursor_error c body e h, ?_, ?_, ?_,
    add_model_error_frame, update_model_error_frame⟩
  · intro c n e h
    exact get_cursor_error c _ e h
  · intro c mid rid a e h
    exact get_cursor_error c _ e h
  · intro c n e h
    exact get_cursor_error c _ e h

theorem C2_transactions_witness :
    (Database.add_company connUpsert "Acme").2 = connUpsert ∧
    (Database.add_model conn0 badModelData).2.store.models = conn0.store.models ∧
    (Database.add_or_update_price conn0 9 9 5).2 = conn0 :=
  ⟨C2_transactions.2.1 connUpsert "Acme" .uniqueViolation (by decide),
   (C2_transactions.2.2.2.2.1 conn0 badModelData .fkViolation (by decide)).1,
   C2_transactions.2.2.1 conn0 9 9 5 .fkViolation (by decide)⟩

/-! ## Importer step frame lemmas -/

theorem stepFrame_refl (st : ImportState) : StepFrame st st :=
  ⟨rfl, List.prefix_rfl, List.prefix_rfl, List.suffix_rfl, List.suffix_rfl,
   le_refl _, le_refl _⟩

theorem stepFrame_trans {a b c : ImportState} (h1 : StepFrame a b) (h2 : StepFrame b c) :
    StepFrame a c :=
  ⟨h2.1.trans h1.1, h1.2.1.trans h2.2.1, h1.2.2.1.trans h2.2.2.1,
   h1.2.2.2.1.trans h2.2.2.2.1, h1.2.2.2.2.1.trans h2.2.2.2.2.1,
   le_trans h1.2.2.2.2.2.1 h2.2.2.2.2.2.1, le_trans h1.2.2.2.2.2.2 h2.2.2.2.2.2.2⟩

theorem insertCompany_ok {s : Store} {q : Seq} {n : String} {cid : Nat} {s2 : Store}
    {q2 : Seq} (h : insertCompany s q n = .ok (cid, s2, q2)) :
    s2 = { s with companies := s.companies ++ [(q.company, n)] } := by
  unfold insertCompany at h
  split at h
  · exact absurd h (by simp)
  · simp only [Except.ok.injEq, Prod.mk.injEq] at h
    exact h.2.1.symm

theorem insertProcessor_ok {s : Store} {q : Seq} {n : String} {pid : Nat} {s2 : Store}
    {q2 : Seq} (h : insertProcessor s q n = .ok (pid, s2, q2)) :
    s2 = { s with processors := s.processors ++ [(q.processor, n)] } := by
  unfold insertProcessor at h
  split at h
  · exact absurd h (by simp)
  · simp only [Except.ok.injEq, Prod.mk.injEq] at h
    exact h.2.1.symm

theorem insertModel_ok {s : Store} {q : Seq} {nm : String} {cid : Nat} {pid : Option Nat}
    {w r fc bc bat sc : Option String} {ly : Option Int} {mid : Nat} {s2 : Store} {q2 : Seq}
    (h : insertModel s q nm cid pid w r fc bc bat sc ly = .ok (mid, s2, q2)) :
    s2 = { s with models := s.models ++ [⟨q.model, nm, cid, pid, w, r, fc, bc, bat, sc, ly⟩] } := by
  unfold insertModel at h
  split at h
  · exact absurd h (by simp)
  · split at h
    · exact absurd h (by simp)
    · simp only [Except.ok.injEq, Prod.mk.injEq] at h
      exact h.2.1.symm

theorem insertPrice_ok {s : Store} {q : Seq} {mid rid : Nat} {a : ℚ} {pr : Nat} {s2 : Store}
    {q2 : Seq} (h : insertPrice s q mid rid a = .ok (pr, s2, q2)) :
    s2 = { s with prices := s.prices ++ [⟨q.price, mid, rid, a⟩] } := by
  unfold insertPrice at h
  split at h
  · exact absurd h (by simp)
  · split at h
    · exact absurd h (by simp)
    · split at h
      · exact absurd h (by simp)
      · simp only [Except.ok.injEq, Prod.mk.injEq] at h
        exact h.2.1.symm

theorem gocc_frame (st : ImportState) (name : Option String) :
    StepFrame st (outState (Importer.get_or_create_company st name)) ∧
    (outState (Importer.get_or_create_company st name)).pending.models = st.pending.models ∧
    (outState (Importer.get_or_create_company st name)).pending.prices = st.pending.prices := by
  cases name with
  | none =>
    exact ⟨stepFrame_refl st, rfl, rfl⟩
  | some n =>
    simp only [Importer.get_or_create_company]
    split
    · exact ⟨stepFrame_refl st, rfl, rfl⟩
    · split
      · exact ⟨⟨rfl, List.prefix_rfl, List.prefix_rfl, List.suffix_cons _ _,
          List.suffix_rfl, le_refl _, le_refl _⟩, rfl, rfl⟩
      · split
        · rename_i c2 s2 q2 heq
          have hs := insertCompany_ok heq
          subst hs
          exact ⟨⟨rfl, List.prefix_rfl, List.prefix_rfl, List.suffix_cons _ _,
            List.suffix_rfl, le_refl _, le_refl _⟩, rfl, rfl⟩
        · exact ⟨stepFrame_refl st, rfl, rfl⟩

theorem gocp_frame (st : ImportState) (name : Option String) :
    StepFrame st (outState (Importer.get_or_create_processor st name)) ∧
    (outState (Importer.get_or_create_processor st name)).pending.models = st.pending.models ∧
    (outState (Importer.get_or_create_processor st name)).pending.prices = st.pending.prices := by
  cases name with
  | none =>
    exact ⟨stepFrame_refl st, rfl, rfl⟩
  | some n =>
    simp only [Importer.get_or_create_processor]
    split
    · exact ⟨stepFrame_refl st, rfl, rfl⟩
    · split
      · exact ⟨stepFrame_refl st, rfl, rfl⟩
      · split
        · exact ⟨⟨rfl, List.prefix_rfl, List.prefix_rfl, List.suffix_rfl,
            List.suffix_cons _ _, le_refl _, le_refl _⟩, rfl, rfl⟩
        · split
          · rename_i p2 s2 q2 heq
            have hs := insertProcessor_ok heq
            subst hs
            exact ⟨⟨rfl, List.prefix_rfl, List.prefix_rfl, List.suffix_rfl,
              List.suffix_cons _ _, le_refl _, le_refl _⟩, rfl, rfl⟩
          · exact ⟨stepFrame_refl st, rfl, rfl⟩

theorem resolveModel_frame (st : ImportState) (row : Row) (cid : Nat) (pid : Option Nat) :
    StepFrame st (outState (Importer.resolveModel st row cid pid)) := by
  simp only [Importer.resolveModel]
  split
  · exact stepFrame_refl st
  · split
    · exact stepFrame_refl st
    · split
      · rename_i m2 s2 q2 heq
        have hs := insertModel_ok heq
        subst hs
        exact ⟨rfl, List.prefix_append _ _, List.prefix_rfl, List.suffix_rfl,
          List.suffix_rfl, Nat.le_succ _, le_refl _⟩
      · exact stepFrame_refl st

theorem priceStep_frame (mid : Nat) (st : ImportState) (rc : String × Option String) :
    StepFrame st (outState2 (Importer.priceStep mid st rc)) ∧
    (outState2 (Importer.priceStep mid st rc)).pending.models = st.pending.models := by
  simp only [Importer.priceStep]
  split
  · exact ⟨stepFrame_refl st, rfl⟩
  · split
    · exact ⟨stepFrame_refl st, rfl⟩
    · split
      · exact ⟨stepFrame_refl st, rfl⟩
      · split
        · rename_i p2 s2 q2 heq
          have hs := insertPrice_ok heq
          subst hs
          exact ⟨⟨rfl, List.prefix_rfl, List.prefix_append _ _, List.suffix_rfl,
            List.suffix_rfl, le_refl _, Nat.le_succ _⟩, rfl⟩
        · exact ⟨stepFrame_refl st, rfl⟩

theorem resolveModel_hit (st : ImportState) (row : Row) (cid : Nat) (pid : Option Nat)
    (h : (lookupModel st.pending row.modelName cid).isSome = true) :
    (outState (Importer.resolveModel st row cid pid)).pending.models = st.pending.models := by
  simp only [Importer.resolveModel, Importer.exec]
  cases hm : lookupModel st.pending row.modelName cid with
  | some mid => rfl
  | none => rw [hm] at h; simp at h

theorem pricesLoop_frame (mid : Nat) (rcs : List (String × Option String)) :
    ∀ st : ImportState,
    StepFrame st (outState2 (Importer.pricesLoop mid st rcs)) ∧
    (outState2 (Importer.pricesLoop mid st rcs)).pending.models = st.pending.models := by
  induction rcs with
  | nil => intro st; exact ⟨stepFrame_refl st, rfl⟩
  | cons rc rest ih =>
    intro st
    simp only [Importer.pricesLoop]
    cases h : Importer.priceStep mid st rc with
    | ok st1 =>
      have hp := priceStep_frame mid st rc
      rw [h] at hp
      obtain ⟨ih1, ih2⟩ := ih st1
      exact ⟨stepFrame_trans hp.1 ih1, ih2.trans hp.2⟩
    | error st1 =>
      have hp := priceStep_frame mid st rc
      rw [h] at hp
      exact hp

theorem processRow_frame (st : ImportState) (row : Row) :
    StepFrame st (afterRow st row) := by
  unfold afterRow Importer.processRow
  split
  · rename_i st1 heq
    have hc := (gocc_frame st row.companyName).1
    rw [heq] at hc
    exact hc
  · rename_i cid st1 heq
    have hc := (gocc_frame st row.companyName).1
    rw [heq] at hc
    split
    · rename_i st2 heq2
      have hp := (gocp_frame st1 row.processor).1
      rw [heq2] at hp
      exact stepFrame_trans hc hp
    · rename_i pid st2 heq2
      have hp := (gocp_frame st1 row.processor).1
      rw [heq2] at hp
      split
      · rename_i st3 heq3
        have hr := resolveModel_frame st2 row cid pid
        rw [heq3] at hr
        exact stepFrame_trans (stepFrame_trans hc hp) hr
      · rename_i mid st3 heq3
        have hr := resolveModel_frame st2 row cid pid
        rw [heq3] at hr
        exact stepFrame_trans (stepFrame_trans (stepFrame_trans hc hp) hr)
          ((pricesLoop_frame mid (Importer.priceColumns row) st3).1)

theorem lookupModel_congr {s1 s2 : Store} (h : s1.models = s2.models) (n : String) (cid : Nat) :
    lookupModel s1 n cid = lookupModel s2 n cid := by
  unfold lookupModel
  rw [h]

theorem find?_append_some {α : Type} (p : α → Bool) {l₁ : List α} (l₂ : List α) {x : α}
    (h : l₁.find? p = some x) : (l₁ ++ l₂).find? p = some x := by
  induction l₁ with
  | nil => simp at h
  | cons a t ih =>
    rw [List.cons_append]
    by_cases hp : p a = true
    · rw [List.find?_cons_of_pos _ hp] at h
      rw [List.find?_cons_of_pos _ hp]
      exact h
    · rw [List.find?_cons_of_neg _ hp] at h
      rw [List.find?_cons_of_neg _ hp]
      exact ih h

theorem importStep_mono (st : ImportState) (idx : Nat) (row : Row) :
    st.company_cache <:+ (Importer.importStep st idx row).company_cache ∧
    st.processor_cache <:+ (Importer.importStep st idx row).processor_cache ∧
    st.models_count ≤ (Importer.importStep st idx row).models_count ∧
    st.prices_count ≤ (Importer.importStep st idx row).prices_count := by
  have hf := processRow_frame st row
  unfold afterRow at hf
  unfold Importer.importStep
  cases h : Importer.processRow st row with
  | ok st1 =>
    rw [h] at hf
    cases hI : (idx + 1) % 100 == 0 with
    | true => exact ⟨hf.2.2.2.1, hf.2.2.2.2.1, hf.2.2.2.2.2.1, hf.2.2.2.2.2.2⟩
    | false => exact ⟨hf.2.2.2.1, hf.2.2.2.2.1, hf.2.2.2.2.2.1, hf.2.2.2.2.2.2⟩
  | error st1 =>
    rw [h] at hf
    exact ⟨hf.2.2.2.1, hf.2.2.2.2.1, hf.2.2.2.2.2.1, hf.2.2.2.2.2.2⟩

/-! ## Claims about the import loop -/

/-- C1 counterexample: in the two-row run `[row1, row2]` from an empty
store, row 1 is processed successfully, row 2 raises — and although no
periodic commit intervened, row 1's model and price are NOT retained:
the rollback discards the whole uncommitted window (the summary still
counts the lost model), contradicting "exactly that row's pending changes
are rolled back and no changes from other rows are lost". -/
theorem C1_counterexample :
    rowSucceeded (Importer.processRow st0 row1) = true ∧
    rowSucceeded (Importer.processRow stAfter1 row2) = false ∧
    runTwo.models_count = 1 ∧
    runTwo.committed.models = [] ∧
    runTwo.committed.prices = [] := by
  refine ⟨by decide, by decide, by decide, by decide, by decide⟩

/-- C1 amended: an exception while processing a row is caught (never
re-raised: the loop equation continues with the remaining rows), but the
handler's `conn.rollback()` discards ALL pending (uncommitted) changes
since the last commit — the failing row's partial writes and every
previously processed successful row's writes in the same periodic-commit
window — leaving the pending view equal to the committed state; only
periodic commits (every 100 rows) and the final commit make work
durable. -/
theorem C1_rollback (st : ImportState) (idx : Nat) (row : Row) (st1 : ImportState)
    (h : Importer.processRow st row = .error st1) :
    Importer.importStep st idx row = Importer.rollback st1 ∧
    (Importer.importStep st idx row).pending = st.committed ∧
    (Importer.importStep st idx row).committed = st.committed ∧
    (∀ rest, Importer.importLoop st idx (row :: rest) =
      Importer.importLoop (Importer.importStep st idx row) (idx + 1) rest) := by
  have hcom : st1.committed = st.committed := by
    have hf := processRow_frame st row
    unfold afterRow at hf
    rw [h] at hf
    exact hf.1
  have hstep : Importer.importStep st idx row = Importer.rollback st1 := by
    unfold Importer.importStep
    rw [h]
  refine ⟨hstep, ?_, ?_, fun rest => rfl⟩
  · rw [hstep]
    exact hcom
  · rw [hstep]
    exact hcom

theorem C1_rollback_witness :
    (Importer.importStep stAfter1 1 row2).pending = stAfter1.committed ∧
    (Importer.importStep stAfter1 1 row2).committed = stAfter1.committed :=
  ⟨(C1_rollback stAfter1 1 row2 failSt2 (by rfl)).2.1,
   (C1_rollback stAfter1 1 row2 failSt2 (by rfl)).2.2.1⟩

/-- C7: the bulk import path writes only net-new rows.  Whatever a row
does (return or raise), the pending models and prices tables only get
rows appended — existing rows (and so existing price amounts) are left
verbatim; when the row's `(model name, resolved company id)` already
names an existing model, the models table is not touched at all (the
identity is merely reused); and a `(model, region)` pair that already
has a price row keeps exactly that row. -/
theorem C7_import_net_new (st : ImportState) (row : Row) :
    (st.pending.models <+: (afterRow st row).pending.models) ∧
    (st.pending.prices <+: (afterRow st row).pending.prices) ∧
    (∀ cid stc, Importer.get_or_create_company st row.companyName = .ok (cid, stc) →
      (lookupModel st.pending row.modelName cid).isSome = true →
      (afterRow st row).pending.models = st.pending.models) ∧
    (∀ mid rid pid2, lookupPrice st.pending mid rid = some pid2 →
      lookupPrice (afterRow st row).pending mid rid = some pid2) := by
  have hf := processRow_frame st row
  refine ⟨hf.2.1, hf.2.2.1, ?_, ?_⟩
  · intro cid stc h1 hm
    have hcm := (gocc_frame st row.companyName).2.1
    rw [h1] at hcm
    unfold afterRow Importer.processRow
    split
    · rename_i st1 heq
      rw [h1] at heq
      exact absurd heq (by simp)
    · rename_i cid2 st1 heq
      rw [h1] at heq
      simp only [Except.ok.injEq, Prod.mk.injEq] at heq
      obtain ⟨hcid, hst⟩ := heq
      subst hcid
      subst hst
      split
      · rename_i st2 heq2
        have hpm := (gocp_frame stc row.processor).2.1
        rw [heq2] at hpm
        exact hpm.trans hcm
      · rename_i pid st2 heq2
        have hpm := (gocp_frame stc row.processor).2.1
        rw [heq2] at hpm
        have hpm2 : st2.pending.models = st.pending.models := hpm.trans hcm
        have hm2 : (lookupModel st2.pending row.modelName cid).isSome = true := by
          rw [lookupModel_congr hpm2 row.modelName cid]
          exact hm
        split
        · rename_i st3 heq3
          have hr := resolveModel_hit st2 row cid pid hm2
          rw [heq3] at hr
          exact (hr.trans hpm).trans hcm
        · rename_i mid st3 heq3
          have hr := resolveModel_hit st2 row cid pid hm2
          rw [heq3] at hr
          have hl := (pricesLoop_frame mid (Importer.priceColumns row) st3).2
          exact ((hl.trans hr).trans hpm).trans hcm
  · intro mid rid pid2 h2
    obtain ⟨t, ht⟩ := hf.2.2.1
    unfold lookupPrice at h2 ⊢
    rw [Option.map_eq_some'] at h2
    obtain ⟨x, hfind, hpid⟩ := h2
    rw [← ht]
    rw [find?_append_some (isPair mid rid) t hfind]
    rw [Option.map_some']
    rw [hpid]

theorem C7_import_net_new_witness :
    (afterRow stAfter1 row1).pending.models = stAfter1.pending.models ∧
    lookupPrice (afterRow stAfter1 row1).pending 1 1 = some 1 :=
  ⟨(C7_import_net_new stAfter1 row1).2.2.1 1 stAfter1 (by decide) (by decide),
   (C7_import_net_new stAfter1 row1).2.2.2 1 1 1 (by decide)⟩

/-- C8: within one run the importer's company-name→id and
processor-name→id caches only grow — every step leaves the old cache as
a suffix of the new one, through failures and rollbacks included — and
concretely, after the `[row1, row2]` run the cache still maps "Acme" to
id 1 although the row that inserted it was rolled back (the committed
companies table is empty), so a later resolution of "Acme" is handed the
dangling identity 1 straight from the cache without touching the store. -/
theorem C8_caches_only_grow :
    (∀ st idx row, st.company_cache <:+ (Importer.importStep st idx row).company_cache) ∧
    (∀ st idx row, st.processor_cache <:+ (Importer.importStep st idx row).processor_cache) ∧
    runTwo.company_cache = [("Acme", 1)] ∧
    runTwo.committed.companies = [] ∧
    Importer.get_or_create_company runTwo (some "Acme") = .ok (1, runTwo) := by
  refine ⟨fun st idx row => (importStep_mono st idx row).1,
    fun st idx row => (importStep_mono st idx row).2.1, by decide, by decide, by decide⟩

/-- C10: the models-added and prices-added counters are incremented when
the corresponding INSERT runs and are never decremented by a rollback —
they never decrease across a loop iteration — so the end-of-run summary
can over-report: the `[row1, row2]` run reports 1 model and 1 price
added while the committed store holds none. -/
theorem C10_summary_overcounts :
    (∀ st idx row, st.models_count ≤ (Importer.importStep st idx row).models_count) ∧
    (∀ st idx row, st.prices_count ≤ (Importer.importStep st idx row).prices_count) ∧
    runTwo.models_count = 1 ∧
    runTwo.prices_count = 1 ∧
    runTwo.committed.models.length = 0 ∧
    runTwo.committed.prices.length = 0 := by
  refine ⟨fun st idx row => (importStep_mono st idx row).2.2.1,
    fun st idx row => (importStep_mono st idx row).2.2.2,
    by decide, by decide, by decide, by decide⟩

end Mobiles
